import Mathlib

/-!
Shallow embedding of `soprano/calculate/nmr/utils.py` (annotation-placement
energy/force model, peak data model and 2D contour generation), together with
theorems settling the specification claims about it.

Numbers are modelled as elements of a linear ordered field (rationals are used
for concrete evaluations, reals where calculus is needed).  NumPy's process-wide
random source `np.random.randn` is modelled as an explicit function
`rand : ℕ → ℕ → α` giving the draw used for matrix cell `(i, j)`.  The SciPy
`minimize` call is external to the repository and is modelled as an abstract
function `minimiser` applied to the normalised, sorted positions (the constants
`C`, `k`, `ftol` and `max_iters` of the source are absorbed into that abstract
function, and the initial guess equals the normalised original positions there).
-/

namespace Soprano

/-- Numeric tolerance `1e-8` used throughout `utils.py` to decide whether two
annotation positions are distinct. -/
def eps (α : Type*) [LinearOrderedField α] : α := 1 / 100000000

variable {α : Type*} [LinearOrderedField α]

/-- Entry `(i, j)` of `displacement_matrix = positions[:, None] - positions[None, :]`
(`utils.py` line 56).  Out-of-range indices default to `0`; all claims are about
in-range indices. -/
def displacement (positions : List α) (i j : ℕ) : α :=
  positions.getD i 0 - positions.getD j 0

/-- Mask `off_diag_mask` after line 62 of `utils.py`: off-diagonal AND displacement
larger than `1e-8` in absolute value. -/
def off_diag_mask (positions : List α) (i j : ℕ) : Prop :=
  i ≠ j ∧ eps α < |displacement positions i j|

/-- Mask `zero_off_diag_mask` of line 68 of `utils.py`: the (already restricted)
`off_diag_mask` AND NOT `non_zero_displacements`.  Translated literally from the
source, where `off_diag_mask` has been reassigned at line 62 before this point. -/
def zero_off_diag_mask (positions : List α) (i j : ℕ) : Prop :=
  off_diag_mask positions i j ∧ ¬ eps α < |displacement positions i j|

instance (positions : List α) (i j : ℕ) : Decidable (off_diag_mask positions i j) :=
  inferInstanceAs (Decidable (_ ∧ _))

instance (positions : List α) (i j : ℕ) : Decidable (zero_off_diag_mask positions i j) :=
  inferInstanceAs (Decidable (_ ∧ _))

/-- Entry `(i, j)` of the matrix built by `get_force_matrix` (`utils.py` lines 54-74).
The numpy code starts from zeros, adds `C*d/|d|**4` on `off_diag_mask`, overwrites
cells of `zero_off_diag_mask` with `randn()*C*(1/0.05**2)` draws, and finally sets
the diagonal to `-2*k*(positions - positions_original)`; the masks are pairwise
disjoint, so the staged assignments are rendered as one conditional. -/
def get_force_matrix (positions positions_original : List α) (C k : α)
    (rand : ℕ → ℕ → α) (i j : ℕ) : α :=
  if i = j then -2 * k * (positions.getD i 0 - positions_original.getD i 0)
  else if zero_off_diag_mask positions i j then rand i j * C * (1 / ((1 / 20 : α)) ^ 2)
  else if off_diag_mask positions i j then
    C * displacement positions i j / |displacement positions i j| ^ 4
  else 0

/-- Component `i` of the vector returned by the surviving definition of
`get_total_forces` (`utils.py` lines 97-117): `sign = -1`, `Fmat = sign *
get_force_matrix(...)`, then `np.sum(Fmat, axis=1)`, i.e. the row sums of the
negated force matrix. -/
def get_total_forces (positions positions_original : List α) (C k : α)
    (rand : ℕ → ℕ → α) (i : ℕ) : α :=
  ((List.range positions.length).map
    (fun j => (-1 : α) * get_force_matrix positions positions_original C k rand i j)).sum

/-- Accumulated `coulomb_energy` of `get_energy` (`utils.py` lines 126-130): the
double loop `for i in range(n): for j in range(i+1, n)` adding `C/|p_i - p_j|**2`
whenever `|p_i - p_j| > 1e-8`.  The inner loop over `range(i+1, n)` is rendered as
the indices of `range(n)` greater than `i`. -/
def coulomb_energy (positions : List α) (C : α) : α :=
  ((List.range positions.length).map (fun i =>
    (((List.range positions.length).filter (fun j => i < j)).map (fun j =>
      if eps α < |positions.getD i 0 - positions.getD j 0| then
        C / |positions.getD i 0 - positions.getD j 0| ^ 2
      else 0)).sum)).sum

/-- Term `spring_energy = 0.5 * k * np.sum((positions - positions_original)**2)`
of `get_energy` (`utils.py` line 134). -/
def spring_energy (positions positions_original : List α) (k : α) : α :=
  1 / 2 * k * ((positions.zip positions_original).map (fun q => (q.1 - q.2) ^ 2)).sum

/-- Scalar returned by `get_energy` (`utils.py` lines 118-137):
`spring_energy + coulomb_energy`. -/
def get_energy (positions positions_original : List α) (C k : α) : α :=
  spring_energy positions positions_original k + coulomb_energy positions C

/-- Value of `np.max(l)`; the source only applies it to non-empty lists, empty
lists are given the junk value `0`. -/
def listMax : List α → α
  | [] => 0
  | h :: t => t.foldl max h

/-- Value of `np.min(l)`; the source only applies it to non-empty lists, empty
lists are given the junk value `0`. -/
def listMin : List α → α
  | [] => 0
  | h :: t => t.foldl min h

/-- Normalisation divisor `original_range = np.max(...) - np.min(...)` computed at
line 172 of `utils.py`. -/
def rangeDivisor (l : List α) : α := listMax l - listMin l

/-- Indices `np.argsort(l)`: the indices of `l` sorted by their values
(`utils.py` lines 162-164).  Ties are resolved stably here — one of the index
orders numpy's unstable default sort may return; the claims do not depend on the
tie order.  Out-of-range lookups take the default `d`, which is never reached
because only indices below `l.length` are sorted. -/
def argsort {β : Type*} [LinearOrder β] (d : β) (l : List β) : List ℕ :=
  List.insertionSort (fun i j => l.getD i d ≤ l.getD j d) (List.range l.length)

/-- Numpy fancy indexing `l[idx]`: element `i` of the result is `l[idx[i]]`,
with default `d` for out-of-range indices (never reached in the claims). -/
def applyIdx {β : Type*} (l : List β) (d : β) (idx : List ℕ) : List β :=
  idx.map (fun i => l.getD i d)

/-- List returned by `optimise_annotations` (`utils.py` lines 140-206): inputs
shorter than 3 are returned unchanged; otherwise the positions are sorted by
`np.argsort`, normalised to `[0, 1]` by the original range, passed to the
external SciPy `minimize` (abstracted as `minimiser`; its initial guess equals
the normalised originals), un-normalised, and restored to input order through
the inverse permutation `np.argsort(order)`. -/
def optimise_annotations (minimiser : List α → List α) (positions : List α) : List α :=
  if positions.length < 3 then positions
  else
    let order := argsort 0 positions
    let inverted_order := argsort 0 order
    let sorted := applyIdx positions 0 order
    let original_range := rangeDivisor sorted
    let min_pos := listMin sorted
    let posNorm := sorted.map (fun q => (q - min_pos) / original_range)
    let new_pos := (minimiser posNorm).map (fun q => q * original_range + min_pos)
    applyIdx new_pos 0 inverted_order

/-- Peak record `Peak2D` of `utils.py` (lines 210-233): x/y position, labels,
correlation strength, colour and optional label indices. -/
structure Peak2D (γ : Type*) where
  x : γ
  y : γ
  xlabel : String
  ylabel : String
  correlation_strength : γ
  color : String
  idx_x : Option ℕ
  idx_y : Option ℕ

/-- Broadening function `lorentzian` of `utils.py` lines 261-282.  Its body is
`np.exp(-((X-x0)**2/(2*wx**2) + (Y-y0)**2/(2*wy**2)))` — identical to the
Gaussian body, despite the Lorentzian docstring.  `np.exp` is an external
library call and is abstracted as `expf`; the array arguments are modelled
pointwise. -/
def lorentzian (expf : α → α) (X x0 Y y0 x_broadening y_broadening : α) : α :=
  expf (-((X - x0) ^ 2 / (2 * x_broadening ^ 2) + (Y - y0) ^ 2 / (2 * y_broadening ^ 2)))

/-- Broadening function `gaussian` of `utils.py` lines 284-305. -/
def gaussian (expf : α → α) (X x0 Y y0 x_broadening y_broadening : α) : α :=
  expf (-((X - x0) ^ 2 / (2 * x_broadening ^ 2) + (Y - y0) ^ 2 / (2 * y_broadening ^ 2)))

/-- ASCII lowercasing, Python's `str.lower()` applied to the kernel name at line
331 of `utils.py`. -/
def strLower (s : String) : String := String.mk (s.data.map Char.toLower)

/-- Limit resolution of `generate_contour_map` (`utils.py` lines 333-340):
supplied limits are used verbatim, otherwise Python's `min`/`max` over the peak
coordinates, which raise on an empty sequence. -/
def resolve_lims (vals : List α) (lims : Option (α × α)) : Except String (α × α) :=
  match lims with
  | some l => Except.ok l
  | none =>
    match vals with
    | [] => Except.error "min() arg is an empty sequence"
    | v :: vs => Except.ok (vs.foldl min v, vs.foldl max v)

/-- Grid `np.linspace(a, b, n)`: `n` evenly spaced values from `a` to `b`
inclusive (exactly so in field arithmetic); `n = 1` gives `[a]` and `n = 0` the
empty list, as in numpy (the `n = 1` step formula divides by zero, which the
field convention maps to a zero step, matching numpy's single-point grid). -/
def linspace (a b : α) (n : ℕ) : List α :=
  (List.range n).map (fun i : ℕ => a + (i : α) * ((b - a) / ((n : α) - 1)))

/-- Kernel dispatch inside the per-peak loop of `generate_contour_map`
(`utils.py` lines 353-356): the intensity contribution at one grid point for one
peak, by (already lowercased) kernel name.  Unknown names contribute the junk
value `0` here; the surrounding function raises instead of using it. -/
def kernel_val (b : String) (expf : α → α) (xv x0 yv y0 wx wy : α) : α :=
  if b = "lorentzian" then lorentzian expf xv x0 yv y0 wx wy
  else if b = "gaussian" then gaussian expf xv x0 yv y0 wx wy
  else 0

/-- Result of `generate_contour_map` (`utils.py` lines 307-360): the x and y
linspace grids (meshgrid `X`/`Y` repeat them along rows/columns) and the
intensity `Z` at mesh cell `(r, c)`.  The unknown-kernel `ValueError` is raised
inside the per-peak loop, hence only when at least one peak exists; Python's
`min`/`max` raise on an empty peak list when limits are omitted. -/
def generate_contour_map (peaks : List (Peak2D α)) (grid_size : ℕ) (broadening : String)
    (x_broadening y_broadening : α) (xlims ylims : Option (α × α)) (expf : α → α) :
    Except String (List α × List α × (ℕ → ℕ → α)) :=
  let b := strLower broadening
  match resolve_lims (peaks.map Peak2D.x) xlims with
  | Except.error e => Except.error e
  | Except.ok (x_min, x_max) =>
    match resolve_lims (peaks.map Peak2D.y) ylims with
    | Except.error e => Except.error e
    | Except.ok (y_min, y_max) =>
      if peaks.isEmpty = false ∧ b ≠ "lorentzian" ∧ b ≠ "gaussian" then
        Except.error ("Unknown broadening function: " ++ b)
      else
        let xg := linspace (x_min - 5 * x_broadening) (x_max + 5 * x_broadening) grid_size
        let yg := linspace (y_min - 5 * y_broadening) (y_max + 5 * y_broadening) grid_size
        Except.ok (xg, yg, fun r c =>
          (peaks.map (fun pk => pk.correlation_strength *
            kernel_val b expf (xg.getD c 0) pk.x (yg.getD r 0) pk.y
              x_broadening y_broadening)).sum)

end Soprano

namespace Soprano

variable {α : Type*} [LinearOrderedField α]

/-- Helper: a sum of a function mapped over `List.range` equals the `Finset.range` sum. -/
theorem sum_map_range_eq (n : ℕ) (f : ℕ → α) :
    ((List.range n).map f).sum = ∑ j in Finset.range n, f j := by
  induction n with
  | zero => simp
  | succ m ih => rw [List.range_succ]; simp [ih, Finset.sum_range_succ]

/-- Helper: summing a function over the filtered `List.range` equals the guarded
`Finset.range` sum. -/
theorem sum_map_filter_range_eq (n : ℕ) (p : ℕ → Prop) [DecidablePred p] (f : ℕ → α) :
    (((List.range n).filter (fun j => p j)).map f).sum
      = ∑ j in Finset.range n, if p j then f j else 0 := by
  induction n with
  | zero => simp
  | succ m ih =>
    rw [List.range_succ, List.filter_append, List.map_append, List.sum_append,
      Finset.sum_range_succ, ih]
    by_cases hp : p m <;> simp [hp]

/-- Helper: multiplying each summand by `-1` negates a mapped list sum. -/
theorem sum_map_neg_one (l : List ℕ) (f : ℕ → α) :
    (l.map (fun j => (-1 : α) * f j)).sum = -(l.map f).sum := by
  induction l with
  | nil => simp
  | cons a t ih =>
    rw [List.map_cons, List.map_cons, List.sum_cons, List.sum_cons, ih]
    ring

/-- C5: for all positions/originals vectors, constants and random draws, the
force-matrix entry `(i, j)` with `i ≠ j` and gap above `1e-8` equals
`C*(pos_i - pos_j)/|pos_i - pos_j|^4`, and the diagonal entry `(i, i)` equals
`-2*k*(pos_i - original_i)`. -/
theorem C5_force_matrix_entries (positions positions_original : List α) (C k : α)
    (rand : ℕ → ℕ → α) (i j : ℕ) (hij : i ≠ j)
    (hgap : eps α < |positions.getD i 0 - positions.getD j 0|) :
    get_force_matrix positions positions_original C k rand i j
        = C * (positions.getD i 0 - positions.getD j 0)
            / |positions.getD i 0 - positions.getD j 0| ^ 4
      ∧ get_force_matrix positions positions_original C k rand i i
        = -2 * k * (positions.getD i 0 - positions_original.getD i 0) := by
  constructor
  · rw [get_force_matrix, if_neg hij, if_neg, if_pos ⟨hij, hgap⟩, displacement]
    exact fun h => h.2 hgap
  · rw [get_force_matrix, if_pos rfl]

/-- C5 witness: the force law evaluated at the concrete input
`positions = [0, 1]`, `originals = [2, 3]`, `C = k = 1`. -/
theorem C5_force_matrix_entries_witness :
    ((0 : ℕ) ≠ 1
      ∧ eps ℚ < |([0, 1] : List ℚ).getD 0 0 - ([0, 1] : List ℚ).getD 1 0|)
    ∧ (get_force_matrix ([0, 1] : List ℚ) [2, 3] 1 1 (fun _ _ => 0) 0 1
        = 1 * (([0, 1] : List ℚ).getD 0 0 - ([0, 1] : List ℚ).getD 1 0)
            / |([0, 1] : List ℚ).getD 0 0 - ([0, 1] : List ℚ).getD 1 0| ^ 4
      ∧ get_force_matrix ([0, 1] : List ℚ) [2, 3] 1 1 (fun _ _ => 0) 0 0
        = -2 * 1 * (([0, 1] : List ℚ).getD 0 0 - ([2, 3] : List ℚ).getD 0 0)) :=
  ⟨⟨by decide, by norm_num [eps]⟩,
    C5_force_matrix_entries [0, 1] [2, 3] 1 1 (fun _ _ => 0) 0 1 (by decide)
      (by norm_num [eps])⟩

/-- C2: the spec says coincident positions (gap at or below `1e-8`) get a random
mean-zero entry scaled by `C/0.05^2`, and the source comments intend the same;
but the reassigned `off_diag_mask` makes `zero_off_diag_mask` unsatisfiable, so
for the coincident pair `(0, 1)` of `positions = [0, 0, 1]` the entry is `0`
for every random source, contradicting the claim. -/
theorem C2_random_tie_break_never_fires (rand : ℕ → ℕ → ℚ) :
    get_force_matrix ([0, 0, 1] : List ℚ) [0, 0, 1] (1 / 100) (1 / 100000) rand 0 1 = 0 := by
  have hz : ¬ zero_off_diag_mask ([0, 0, 1] : List ℚ) 0 1 := fun h => h.2 h.1.2
  have ho : ¬ off_diag_mask ([0, 0, 1] : List ℚ) 0 1 := by
    norm_num [off_diag_mask, displacement, eps]
  rw [get_force_matrix, if_neg (by decide), if_neg hz, if_neg ho]

/-- Helper: the zipped spring sum of `get_energy` as a `Finset.range` sum, for
vectors of equal length. -/
theorem spring_zip_sum (p o : List α) (h : p.length = o.length) :
    ((p.zip o).map (fun q => (q.1 - q.2) ^ 2)).sum
      = ∑ i in Finset.range p.length, (p.getD i 0 - o.getD i 0) ^ 2 := by
  induction p generalizing o with
  | nil => simp
  | cons a t ih =>
    cases o with
    | nil => simp at h
    | cons b s =>
      rw [List.zip_cons_cons, List.map_cons, List.sum_cons, List.length_cons,
        Finset.sum_range_succ']
      simp only [List.getD_cons_succ, List.getD_cons_zero]
      rw [ih s (by simpa using h)]
      ring

/-- C6: for equal-length vectors and positive constants, `get_energy` equals the
sum over unordered pairs `i < j` of `C/|p_i - p_j|^2` (zero contribution for
gaps at or below `1e-8`) plus `(1/2)*k*Σ(p_i - o_i)^2`, and the value is
non-negative. -/
theorem C6_energy_formula_and_nonneg (p o : List α) (C k : α)
    (hC : 0 < C) (hk : 0 < k) (hlen : p.length = o.length) :
    get_energy p o C k
      = (∑ i in Finset.range p.length, ∑ j in Finset.range p.length,
          if i < j then
            (if eps α < |p.getD i 0 - p.getD j 0| then
              C / |p.getD i 0 - p.getD j 0| ^ 2
            else 0)
          else 0)
        + 1 / 2 * k * ∑ i in Finset.range p.length, (p.getD i 0 - o.getD i 0) ^ 2
    ∧ 0 ≤ get_energy p o C k := by
  have hcoulomb : coulomb_energy p C
      = ∑ i in Finset.range p.length, ∑ j in Finset.range p.length,
          if i < j then
            (if eps α < |p.getD i 0 - p.getD j 0| then
              C / |p.getD i 0 - p.getD j 0| ^ 2
            else 0)
          else 0 := by
    rw [coulomb_energy, sum_map_range_eq]
    refine Finset.sum_congr rfl fun i _ => ?_
    exact sum_map_filter_range_eq p.length (fun j => i < j) _
  have hspring : spring_energy p o k
      = 1 / 2 * k * ∑ i in Finset.range p.length, (p.getD i 0 - o.getD i 0) ^ 2 := by
    rw [spring_energy, spring_zip_sum p o hlen]
  constructor
  · rw [get_energy, hcoulomb, hspring]; ring
  · rw [get_energy]
    have h1 : 0 ≤ spring_energy p o k := by
      rw [spring_energy]
      refine mul_nonneg (mul_nonneg (by norm_num) hk.le) (List.sum_nonneg ?_)
      intro x hx
      obtain ⟨q, _, rfl⟩ := List.mem_map.mp hx
      exact sq_nonneg _
    have h2 : 0 ≤ coulomb_energy p C := by
      rw [coulomb_energy]
      refine List.sum_nonneg ?_
      intro x hx
      obtain ⟨i, _, rfl⟩ := List.mem_map.mp hx
      refine List.sum_nonneg ?_
      intro y hy
      obtain ⟨j, _, rfl⟩ := List.mem_map.mp hy
      split
      · exact div_nonneg hC.le (pow_nonneg (abs_nonneg _) 2)
      · exact le_refl 0
    exact add_nonneg h1 h2

/-- C6 witness: the energy formula and non-negativity at the concrete input
`p = o = [0, 1, 3]`, `C = k = 1`. -/
theorem C6_energy_formula_and_nonneg_witness :
    ((0 : ℚ) < 1 ∧ ([0, 1, 3] : List ℚ).length = ([0, 1, 3] : List ℚ).length)
    ∧ (get_energy ([0, 1, 3] : List ℚ) [0, 1, 3] 1 1
        = (∑ i in Finset.range ([0, 1, 3] : List ℚ).length,
            ∑ j in Finset.range ([0, 1, 3] : List ℚ).length,
            if i < j then
              (if eps ℚ < |([0, 1, 3] : List ℚ).getD i 0 - ([0, 1, 3] : List ℚ).getD j 0| then
                1 / |([0, 1, 3] : List ℚ).getD i 0 - ([0, 1, 3] : List ℚ).getD j 0| ^ 2
              else 0)
            else 0)
          + 1 / 2 * 1 * ∑ i in Finset.range ([0, 1, 3] : List ℚ).length,
              (([0, 1, 3] : List ℚ).getD i 0 - ([0, 1, 3] : List ℚ).getD i 0) ^ 2
      ∧ 0 ≤ get_energy ([0, 1, 3] : List ℚ) [0, 1, 3] 1 1) :=
  ⟨⟨by norm_num, rfl⟩,
    C6_energy_formula_and_nonneg [0, 1, 3] [0, 1, 3] 1 1 (by norm_num) (by norm_num) rfl⟩

/-- C1 (amended): under separation of position `i` from all others, the total
force on `i` is the negated row sum of the force matrix, whose closed form is
`2*k*(p_i - o_i) - Σ_{j ≠ i} C*(p_i - p_j)/|p_i - p_j|^4`.  The further claim
that this equals `-dE/dp_i` of `get_energy` is refuted separately. -/
theorem C1_total_forces_negated_row_sum (p o : List α) (C k : α)
    (rand : ℕ → ℕ → α) (i : ℕ) (hi : i < p.length)
    (hsep : ∀ j, j < p.length → j ≠ i → eps α < |p.getD i 0 - p.getD j 0|) :
    get_total_forces p o C k rand i
      = -(((List.range p.length).map (fun j => get_force_matrix p o C k rand i j)).sum)
    ∧ get_total_forces p o C k rand i
      = 2 * k * (p.getD i 0 - o.getD i 0)
        - ∑ j in (Finset.range p.length).erase i,
            C * (p.getD i 0 - p.getD j 0) / |p.getD i 0 - p.getD j 0| ^ 4 := by
  have hdiag : get_force_matrix p o C k rand i i
      = -2 * k * (p.getD i 0 - o.getD i 0) := by
    rw [get_force_matrix, if_pos rfl]
  have herase : ∀ j ∈ (Finset.range p.length).erase i,
      get_force_matrix p o C k rand i j
        = C * (p.getD i 0 - p.getD j 0) / |p.getD i 0 - p.getD j 0| ^ 4 := by
    intro j hj
    obtain ⟨hne, hmem⟩ := Finset.mem_erase.mp hj
    have hij : i ≠ j := fun h => hne h.symm
    have hg := hsep j (Finset.mem_range.mp hmem) hne
    rw [get_force_matrix, if_neg hij, if_neg (fun h => h.2 h.1.2),
      if_pos ⟨hij, hg⟩, displacement]
  constructor
  · rw [get_total_forces, sum_map_neg_one]
  · rw [get_total_forces, sum_map_neg_one, sum_map_range_eq,
      ← Finset.add_sum_erase _ _ (Finset.mem_range.mpr hi), hdiag,
      Finset.sum_congr rfl herase]
    ring

/-- C1 witness: the negated-row-sum identity at the concrete input
`p = [0, 1]`, `o = [5, 7]`, `C = k = 1`, `i = 0`. -/
theorem C1_total_forces_negated_row_sum_witness :
    ((0 : ℕ) < ([0, 1] : List ℚ).length
      ∧ ∀ j, j < ([0, 1] : List ℚ).length → j ≠ 0 →
          eps ℚ < |([0, 1] : List ℚ).getD 0 0 - ([0, 1] : List ℚ).getD j 0|)
    ∧ (get_total_forces ([0, 1] : List ℚ) [5, 7] 1 1 (fun _ _ => 0) 0
        = -(((List.range ([0, 1] : List ℚ).length).map
            (fun j => get_force_matrix ([0, 1] : List ℚ) [5, 7] 1 1 (fun _ _ => 0) 0 j)).sum)
      ∧ get_total_forces ([0, 1] : List ℚ) [5, 7] 1 1 (fun _ _ => 0) 0
        = 2 * 1 * (([0, 1] : List ℚ).getD 0 0 - ([5, 7] : List ℚ).getD 0 0)
          - ∑ j in (Finset.range ([0, 1] : List ℚ).length).erase 0,
              1 * (([0, 1] : List ℚ).getD 0 0 - ([0, 1] : List ℚ).getD j 0)
                / |([0, 1] : List ℚ).getD 0 0 - ([0, 1] : List ℚ).getD j 0| ^ 4) :=
  ⟨⟨by decide, by
      intro j hj hne
      have hj2 : j < 2 := by simpa using hj
      interval_cases j
      · exact absurd rfl hne
      · norm_num [eps]⟩,
    C1_total_forces_negated_row_sum [0, 1] [5, 7] 1 1 (fun _ _ => 0) 0 (by decide)
      (by
        intro j hj hne
        have hj2 : j < 2 := by simpa using hj
        interval_cases j
        · exact absurd rfl hne
        · norm_num [eps])⟩

/-- C1 counterexample: at `positions = originals = [0, 1]`, `C = k = 1`, the
energy `t ↦ get_energy [t, 1] [0, 1] 1 1` has derivative `2` at `t = 0` in its
first coordinate, while `get_total_forces` gives `1` there, so the total force
is NOT the negative gradient `-dE/dp_0` claimed by the spec. -/
theorem C1_not_negative_gradient :
    get_total_forces ([0, 1] : List ℝ) [0, 1] 1 1 (fun _ _ => 0) 0 = 1
    ∧ HasDerivAt (fun t : ℝ => get_energy [t, 1] [0, 1] 1 1) 2 0
    ∧ ¬ HasDerivAt (fun t : ℝ => get_energy [t, 1] [0, 1] 1 1)
        (-(get_total_forces ([0, 1] : List ℝ) [0, 1] 1 1 (fun _ _ => 0) 0)) 0 := by
  have htf : get_total_forces ([0, 1] : List ℝ) [0, 1] 1 1 (fun _ _ => 0) 0 = 1 := by
    have h01 : get_force_matrix ([0, 1] : List ℝ) [0, 1] 1 1 (fun _ _ => 0) 0 1 = -1 := by
      rw [get_force_matrix, if_neg (by norm_num), if_neg (fun h => h.2 h.1.2),
        if_pos ⟨by norm_num, by norm_num [displacement, eps]⟩]
      norm_num [displacement]
    have h00 : get_force_matrix ([0, 1] : List ℝ) [0, 1] 1 1 (fun _ _ => 0) 0 0 = 0 := by
      rw [get_force_matrix, if_pos rfl]
      norm_num
    rw [get_total_forces]
    norm_num [List.range_succ, h00, h01]
  have hE : ∀ t : ℝ, get_energy [t, 1] [0, 1] 1 1
      = 1 / 2 * t ^ 2 + (if eps ℝ < |t - 1| then 1 / |t - 1| ^ 2 else 0) := by
    intro t
    rw [get_energy, coulomb_energy, spring_energy]
    norm_num [List.range_succ, List.filter_cons, List.filter_nil]
  have hev : (fun t : ℝ => get_energy [t, 1] [0, 1] 1 1)
      =ᶠ[nhds (0 : ℝ)] fun t : ℝ => 1 / 2 * t ^ 2 + ((t - 1) ^ 2)⁻¹ := by
    filter_upwards [Metric.ball_mem_nhds (0 : ℝ) one_half_pos] with t ht
    rw [Metric.mem_ball, Real.dist_eq, sub_zero] at ht
    have habs : (1 : ℝ) / 2 ≤ |t - 1| := by
      have h1 : |(1 : ℝ)| - |t| ≤ |1 - t| := abs_sub_abs_le_abs_sub 1 t
      have h2 : |t - 1| = |1 - t| := abs_sub_comm t 1
      rw [abs_one] at h1
      linarith
    rw [hE t, if_pos (lt_of_lt_of_le (by norm_num [eps]) habs), sq_abs]
    ring
  have hd : HasDerivAt (fun t : ℝ => 1 / 2 * t ^ 2 + ((t - 1) ^ 2)⁻¹) 2 0 := by
    have h1 : HasDerivAt (fun t : ℝ => t - 1) 1 0 := (hasDerivAt_id 0).sub_const 1
    have h2 : HasDerivAt (fun t : ℝ => (t - 1) ^ 2) ((2 : ℕ) * ((0 : ℝ) - 1) ^ (2 - 1) * 1) 0 :=
      h1.pow 2
    have h3 := h2.inv (by norm_num)
    have h4 : HasDerivAt (fun t : ℝ => 1 / 2 * t ^ 2) (1 / 2 * ((2 : ℕ) * (0 : ℝ) ^ (2 - 1))) 0 :=
      (hasDerivAt_pow 2 0).const_mul (1 / 2)
    have h5 := h4.add h3
    convert h5 using 1
    norm_num
  have hE2 : HasDerivAt (fun t : ℝ => get_energy [t, 1] [0, 1] 1 1) 2 0 :=
    hd.congr_of_eventuallyEq hev
  refine ⟨htf, hE2, ?_⟩
  intro hcontra
  rw [htf] at hcontra
  have := hcontra.unique hE2
  norm_num at this

/-- Helper: `argsort` returns a permutation of the index range. -/
theorem argsort_perm {β : Type*} [LinearOrder β] (d : β) (l : List β) :
    List.Perm (argsort d l) (List.range l.length) :=
  List.perm_insertionSort _ _

/-- Helper: `argsort` preserves length. -/
theorem argsort_length {β : Type*} [LinearOrder β] (d : β) (l : List β) :
    (argsort d l).length = l.length := by
  rw [(argsort_perm d l).length_eq, List.length_range]

/-- Helper: `argsort` lists indices in order of non-decreasing values. -/
theorem argsort_sorted {β : Type*} [LinearOrder β] (d : β) (l : List β) :
    List.Sorted (fun i j => l.getD i d ≤ l.getD j d) (argsort d l) := by
  haveI : IsTotal ℕ (fun i j => l.getD i d ≤ l.getD j d) := ⟨fun _ _ => le_total _ _⟩
  haveI : IsTrans ℕ (fun i j => l.getD i d ≤ l.getD j d) :=
    ⟨fun _ _ _ hab hbc => le_trans hab hbc⟩
  exact List.sorted_insertionSort _ _

/-- Helper: looking every index of a list up in itself reproduces the list. -/
theorem map_getD_range {β : Type*} (l : List β) (d : β) :
    (List.range l.length).map (fun i => l.getD i d) = l := by
  apply List.ext_getElem (by simp)
  intro i h1 h2
  simp only [List.getElem_map, List.getElem_range]
  rw [List.getD_eq_getElem l d h2]

/-- Helper: fancy indexing produces one element per index. -/
theorem applyIdx_length {β : Type*} (l : List β) (d : β) (idx : List ℕ) :
    (applyIdx l d idx).length = idx.length := by
  rw [applyIdx, List.length_map]

/-- Helper: element `kk` of `l[idx]` is `l[idx[kk]]`. -/
theorem applyIdx_getD {β : Type*} (l : List β) (d : β) (idx : List ℕ) (kk : ℕ)
    (h : kk < idx.length) :
    (applyIdx l d idx).getD kk d = l.getD (idx.getD kk 0) d := by
  rw [applyIdx, List.getD_eq_getElem idx 0 h,
    List.getD_eq_getElem _ _ (by simpa using h), List.getElem_map]

/-- Helper: indexing by a permutation of the index range permutes the list. -/
theorem applyIdx_perm {β : Type*} (l : List β) (d : β) (idx : List ℕ)
    (h : List.Perm idx (List.range l.length)) : List.Perm (applyIdx l d idx) l := by
  have hm := h.map (fun i => l.getD i d)
  rw [map_getD_range] at hm
  exact hm

/-- Helper: `List.range` is sorted for `≤`. -/
theorem sorted_le_range (n : ℕ) : List.Sorted (· ≤ ·) (List.range n) :=
  List.Pairwise.imp le_of_lt (List.pairwise_lt_range n)

/-- Helper: `argsort` of a permutation of `range n` is its inverse permutation:
composing recovers each index.  This is the mechanism behind step 6 of
`optimise_annotations` (`inverted_order = np.argsort(order)`). -/
theorem argsort_inverse (l : List ℕ) (hperm : List.Perm l (List.range l.length)) :
    ∀ kk, kk < l.length → l.getD ((argsort 0 l).getD kk 0) 0 = kk := by
  intro kk hkk
  have hτ : List.Perm (argsort 0 l) (List.range l.length) := argsort_perm 0 l
  have hm : List.Perm (applyIdx l 0 (argsort 0 l)) l := applyIdx_perm l 0 _ hτ
  have hmr : List.Perm (applyIdx l 0 (argsort 0 l)) (List.range l.length) := hm.trans hperm
  have hms : List.Sorted (· ≤ ·) (applyIdx l 0 (argsort 0 l)) :=
    List.Pairwise.map _ (fun _ _ hab => hab) (argsort_sorted 0 l)
  have heq : applyIdx l 0 (argsort 0 l) = List.range l.length :=
    List.eq_of_perm_of_sorted hmr hms (sorted_le_range l.length)
  have hk1 : kk < (argsort 0 l).length := by rw [argsort_length]; exact hkk
  have hgd := applyIdx_getD l 0 (argsort 0 l) kk hk1
  rw [heq, List.getD_eq_getElem _ _ (by simpa using hkk), List.getElem_range] at hgd
  exact hgd.symm

/-- Helper: sorting by `argsort` and then indexing by the argsort of the sort
permutation restores the original list. -/
theorem sort_unsort {β : Type*} [LinearOrder β] (p : List β) (d : β) :
    applyIdx (applyIdx p d (argsort d p)) d (argsort 0 (argsort d p)) = p := by
  have horder : List.Perm (argsort d p) (List.range (argsort d p).length) := by
    rw [argsort_length]; exact argsort_perm d p
  apply List.ext_getElem
  · rw [applyIdx_length, argsort_length, argsort_length]
  intro i h1 h2
  have hlen1 : i < (argsort 0 (argsort d p)).length := by
    rw [argsort_length, argsort_length]; exact h2
  have hmem : (argsort 0 (argsort d p)).getD i 0 < (argsort d p).length := by
    have hperm2 : List.Perm (argsort 0 (argsort d p)) (List.range (argsort d p).length) :=
      argsort_perm 0 (argsort d p)
    rw [List.getD_eq_getElem _ _ hlen1]
    exact List.mem_range.mp (hperm2.mem_iff.mp (List.getElem_mem hlen1))
  have hkk : i < (argsort d p).length := by rw [argsort_length]; exact h2
  have hinv := argsort_inverse (argsort d p) horder i hkk
  have hval : (applyIdx (applyIdx p d (argsort d p)) d (argsort 0 (argsort d p))).getD i d
      = p.getD i d := by
    rw [applyIdx_getD _ d _ i hlen1, applyIdx_getD p d _ _ hmem, hinv]
  rw [List.getD_eq_getElem _ _ h1, List.getD_eq_getElem _ _ h2] at hval
  exact hval

/-- C7: inputs with fewer than 3 positions are returned unchanged by
`optimise_annotations`, for every abstract minimiser. -/
theorem C7_short_input_unchanged (minimiser : List α → List α) (positions : List α)
    (h : positions.length < 3) :
    optimise_annotations minimiser positions = positions := by
  rw [optimise_annotations, if_pos h]

/-- C7 witness: the identity law at the concrete two-element input `[1, 2]`. -/
theorem C7_short_input_unchanged_witness :
    ([1, 2] : List ℚ).length < 3
    ∧ optimise_annotations (fun l => l) ([1, 2] : List ℚ) = [1, 2] :=
  ⟨by decide, C7_short_input_unchanged (fun l => l) [1, 2] (by decide)⟩

/-- C8: for inputs of three or more positions and every abstract minimiser
result, the output of `optimise_annotations` has the length of the input, and
the composition sort-then-unsort (indexing by `argsort` and then by the argsort
of the resulting permutation) restores every position to its original index. -/
theorem C8_length_and_order_restored (minimiser : List α → List α) (positions : List α)
    (h3 : 3 ≤ positions.length) :
    (optimise_annotations minimiser positions).length = positions.length
    ∧ applyIdx (applyIdx positions 0 (argsort 0 positions)) 0
        (argsort 0 (argsort 0 positions)) = positions := by
  constructor
  · rw [optimise_annotations, if_neg (by omega)]
    rw [applyIdx_length, argsort_length, argsort_length]
  · exact sort_unsort positions 0

/-- C8 witness: length preservation and order restoration at the concrete input
`[5, 1, 3]` (the spec's own example) with the identity minimiser. -/
theorem C8_length_and_order_restored_witness :
    3 ≤ ([5, 1, 3] : List ℚ).length
    ∧ ((optimise_annotations (fun l => l) ([5, 1, 3] : List ℚ)).length
          = ([5, 1, 3] : List ℚ).length
      ∧ applyIdx (applyIdx ([5, 1, 3] : List ℚ) 0 (argsort 0 ([5, 1, 3] : List ℚ))) 0
          (argsort 0 (argsort 0 ([5, 1, 3] : List ℚ))) = [5, 1, 3]) :=
  ⟨by decide, C8_length_and_order_restored (fun l => l) [5, 1, 3] (by decide)⟩

/-- Helper: the accumulator is below a `max`-fold. -/
theorem le_foldl_max (t : List α) (acc : α) : acc ≤ t.foldl max acc := by
  induction t generalizing acc with
  | nil => exact le_refl _
  | cons b s ih => exact le_trans (le_max_left acc b) (ih (max acc b))

/-- Helper: every member is below a `max`-fold. -/
theorem mem_le_foldl_max (t : List α) : ∀ (acc x : α), x ∈ t → x ≤ t.foldl max acc := by
  induction t with
  | nil => intro acc x hx; cases hx
  | cons b s ih =>
    intro acc x hx
    rcases List.mem_cons.mp hx with rfl | hmem
    · exact le_trans (le_max_right acc x) (le_foldl_max s (max acc x))
    · exact ih (max acc b) x hmem

/-- Helper: a `min`-fold is below the accumulator. -/
theorem foldl_min_le (t : List α) (acc : α) : t.foldl min acc ≤ acc := by
  induction t generalizing acc with
  | nil => exact le_refl _
  | cons b s ih => exact le_trans (ih (min acc b)) (min_le_left acc b)

/-- Helper: a `min`-fold is below every member. -/
theorem foldl_min_le_mem (t : List α) : ∀ (acc x : α), x ∈ t → t.foldl min acc ≤ x := by
  induction t with
  | nil => intro acc x hx; cases hx
  | cons b s ih =>
    intro acc x hx
    rcases List.mem_cons.mp hx with rfl | hmem
    · exact le_trans (foldl_min_le s (min acc x)) (min_le_right acc x)
    · exact ih (min acc b) x hmem

/-- Helper: `listMax` bounds every member from above. -/
theorem le_listMax (l : List α) (x : α) (hx : x ∈ l) : x ≤ listMax l := by
  cases l with
  | nil => cases hx
  | cons h t =>
    rw [listMax]
    rcases List.mem_cons.mp hx with rfl | hmem
    · exact le_foldl_max t x
    · exact mem_le_foldl_max t h x hmem

/-- Helper: `listMin` bounds every member from below. -/
theorem listMin_le (l : List α) (x : α) (hx : x ∈ l) : listMin l ≤ x := by
  cases l with
  | nil => cases hx
  | cons h t =>
    rw [listMin]
    rcases List.mem_cons.mp hx with rfl | hmem
    · exact foldl_min_le t x
    · exact foldl_min_le_mem t h x hmem

/-- Helper: a list with two distinct members has a nonzero range. -/
theorem rangeDivisor_ne_zero (l : List α) (a b : α) (ha : a ∈ l) (hb : b ∈ l)
    (hab : a ≠ b) : rangeDivisor l ≠ 0 := by
  rw [rangeDivisor]
  rcases lt_or_gt_of_ne hab with h | h
  · have h1 : listMin l ≤ a := listMin_le l a ha
    have h2 : b ≤ listMax l := le_listMax l b hb
    intro hz
    linarith
  · have h1 : listMin l ≤ b := listMin_le l b hb
    have h2 : a ≤ listMax l := le_listMax l a ha
    intro hz
    linarith

/-- C3 (amended): for inputs with at least two distinct values, the
normalisation divisor `original_range` computed by `optimise_annotations` on the
sorted positions is nonzero, so the normalisation performs no division by zero
(the `1e-8` guards protect all divisions inside `get_energy` and
`get_force_matrix`).  The original claim — no division by a true zero for EVERY
input of three or more positions — is refuted separately on an all-coincident
input. -/
theorem C3_divisor_nonzero_of_two_distinct (positions : List α) (a b : α)
    (ha : a ∈ positions) (hb : b ∈ positions) (hab : a ≠ b) :
    rangeDivisor (applyIdx positions 0 (argsort 0 positions)) ≠ 0 := by
  have hperm : List.Perm (applyIdx positions 0 (argsort 0 positions)) positions :=
    applyIdx_perm _ _ _ (argsort_perm 0 positions)
  exact rangeDivisor_ne_zero _ a b (hperm.mem_iff.mpr ha) (hperm.mem_iff.mpr hb) hab

/-- C3 witness: a nonzero divisor at the concrete input `[1, 2, 3]`. -/
theorem C3_divisor_nonzero_of_two_distinct_witness :
    ((1 : ℚ) ∈ ([1, 2, 3] : List ℚ) ∧ (2 : ℚ) ∈ ([1, 2, 3] : List ℚ) ∧ (1 : ℚ) ≠ 2)
    ∧ rangeDivisor (applyIdx ([1, 2, 3] : List ℚ) 0 (argsort 0 ([1, 2, 3] : List ℚ))) ≠ 0 :=
  ⟨⟨by norm_num, by norm_num, by norm_num⟩,
    C3_divisor_nonzero_of_two_distinct [1, 2, 3] 1 2 (by norm_num) (by norm_num) (by norm_num)⟩

/-- C3 counterexample: the all-coincident input `[1, 1, 1]` passes the
length-3 gate of `optimise_annotations` yet produces a zero normalisation
divisor, so the normalisation `(positions - min) / original_range` divides by a
true zero, refuting the claim that no such division can occur. -/
theorem C3_all_coincident_zero_divisor :
    rangeDivisor (applyIdx ([1, 1, 1] : List ℚ) 0 (argsort 0 ([1, 1, 1] : List ℚ))) = 0
    ∧ ¬ ([1, 1, 1] : List ℚ).length < 3 := by
  constructor
  · have h1 : applyIdx ([1, 1, 1] : List ℚ) 0 (argsort 0 ([1, 1, 1] : List ℚ)) = [1, 1, 1] := by
      norm_num [argsort, applyIdx, List.insertionSort, List.orderedInsert]
    rw [h1]
    norm_num [rangeDivisor, listMax, listMin]
  · decide

/-- Helper: the first grid point of a non-empty linspace is the start value. -/
theorem linspace_first (a b : α) (n : ℕ) (h : 0 < n) : (linspace a b n).getD 0 0 = a := by
  rw [linspace, List.getD_eq_getElem _ _ (by simpa using h)]
  simp

/-- Helper: the last grid point of a linspace with at least two points is the
stop value, exactly. -/
theorem linspace_last (a b : α) (n : ℕ) (h : 2 ≤ n) :
    (linspace a b n).getD (n - 1) 0 = b := by
  have h1 : n - 1 < n := by omega
  rw [linspace, List.getD_eq_getElem _ _ (by simpa using h1)]
  simp only [List.getElem_map, List.getElem_range]
  have hcast : ((n - 1 : ℕ) : α) = (n : α) - 1 := by
    have hn1 : 1 ≤ n := by omega
    push_cast [Nat.cast_sub hn1]
    ring
  have hne : ((n : α) - 1) ≠ 0 := by
    have h2 : (2 : α) ≤ (n : α) := by exact_mod_cast h
    intro hz
    linarith
  rw [hcast]
  field_simp

/-- C9: the `lorentzian` and `gaussian` functions have identical bodies (the
documented oddity of the spec), hence agree at every input, and
`generate_contour_map` returns identical results for kernel names
`"lorentzian"` and `"gaussian"` on every peak list and limits. -/
theorem C9_lorentzian_equals_gaussian :
    (∀ (expf : α → α) (X x0 Y y0 wx wy : α),
      lorentzian expf X x0 Y y0 wx wy = gaussian expf X x0 Y y0 wx wy)
    ∧ ∀ (peaks : List (Peak2D α)) (grid_size : ℕ) (wx wy : α)
        (xlims ylims : Option (α × α)) (expf : α → α),
        generate_contour_map peaks grid_size "lorentzian" wx wy xlims ylims expf
          = generate_contour_map peaks grid_size "gaussian" wx wy xlims ylims expf := by
  constructor
  · intro expf X x0 Y y0 wx wy
    rfl
  · intro peaks grid_size wx wy xlims ylims expf
    have hk : ∀ xv xc yv yc : α, kernel_val "lorentzian" expf xv xc yv yc wx wy
        = kernel_val "gaussian" expf xv xc yv yc wx wy := by
      intro xv xc yv yc
      rw [kernel_val, kernel_val, if_pos rfl, if_neg (by decide), if_pos rfl]
      rfl
    have hb1 : strLower "lorentzian" = "lorentzian" := by decide
    have hb2 : strLower "gaussian" = "gaussian" := by decide
    rw [generate_contour_map, generate_contour_map, hb1, hb2]
    cases hx : resolve_lims (peaks.map Peak2D.x) xlims with
    | error e => rfl
    | ok qx =>
      obtain ⟨xmn, xmx⟩ := qx
      cases hy : resolve_lims (peaks.map Peak2D.y) ylims with
      | error e => rfl
      | ok qy =>
        obtain ⟨ymn, ymx⟩ := qy
        dsimp only
        rw [if_neg (fun h => h.2.1 rfl), if_neg (fun h => h.2.2 rfl)]
        simp only [hk]

/-- C4 (amended): with at least one peak, a kernel name that lowercases to
neither `"lorentzian"` nor `"gaussian"` makes `generate_contour_map` fail with
the invalid-argument error naming the unrecognized kernel string, for all limit
arguments; no grid is returned.  The original claim quantified over ALL peak
lists, and is refuted separately on the empty peak list. -/
theorem C4_unknown_kernel_error (peaks : List (Peak2D α)) (grid_size : ℕ)
    (broadening : String) (wx wy : α) (xlims ylims : Option (α × α)) (expf : α → α)
    (hne : peaks ≠ [])
    (h1 : strLower broadening ≠ "lorentzian") (h2 : strLower broadening ≠ "gaussian") :
    generate_contour_map peaks grid_size broadening wx wy xlims ylims expf
      = Except.error ("Unknown broadening function: " ++ strLower broadening) := by
  obtain ⟨p0, ps, rfl⟩ := List.exists_cons_of_ne_nil hne
  have hcond : ((p0 :: ps).isEmpty = false
      ∧ strLower broadening ≠ "lorentzian" ∧ strLower broadening ≠ "gaussian") :=
    ⟨rfl, h1, h2⟩
  cases xlims <;> cases ylims <;>
    · simp only [generate_contour_map, resolve_lims, List.map_cons]
      rw [if_pos hcond]

/-- C4 witness: the error at the concrete call with one peak and kernel name
`"triangular"`. -/
theorem C4_unknown_kernel_error_witness :
    (([⟨0, 0, "a", "b", 1, "C0", none, none⟩] : List (Peak2D ℚ)) ≠ []
      ∧ strLower "triangular" ≠ "lorentzian" ∧ strLower "triangular" ≠ "gaussian")
    ∧ generate_contour_map ([⟨0, 0, "a", "b", 1, "C0", none, none⟩] : List (Peak2D ℚ))
        100 "triangular" 1 1 none none (fun q => q)
      = Except.error ("Unknown broadening function: " ++ strLower "triangular") :=
  ⟨⟨List.cons_ne_nil _ _, by decide, by decide⟩,
    C4_unknown_kernel_error [⟨0, 0, "a", "b", 1, "C0", none, none⟩] 100 "triangular" 1 1
      none none (fun q => q) (List.cons_ne_nil _ _) (by decide) (by decide)⟩

/-- C4 counterexample: an empty peak list with explicit limits and the unknown
kernel name `"triangular"` raises nothing — the call succeeds and returns a
grid, because the `ValueError` sits inside the per-peak loop. -/
theorem C4_empty_peaks_unknown_kernel_no_error :
    (generate_contour_map ([] : List (Peak2D ℚ)) 100 "triangular" 1 1
        (some (0, 1)) (some (0, 1)) (fun q => q)).isOk = true := by
  rfl

/-- C10 (amended): for a grid of at least two points and a successful call, the
returned x grid runs exactly from `x_min - 5*x_broadening` to
`x_max + 5*x_broadening` (and the y grid analogously), where the limits come
from the supplied `xlims`/`ylims` when given and from the peak coordinates
otherwise — the padding applies even to caller-supplied limits.  The original
claim for EVERY call fails at `grid_size = 1` and is refuted separately. -/
theorem C10_grid_spans_padded_limits (peaks : List (Peak2D α)) (grid_size : ℕ)
    (broadening : String) (wx wy : α) (xlims ylims : Option (α × α)) (expf : α → α)
    (xmn xmx ymn ymx : α) (hg : 2 ≤ grid_size)
    (hx : resolve_lims (peaks.map Peak2D.x) xlims = Except.ok (xmn, xmx))
    (hy : resolve_lims (peaks.map Peak2D.y) ylims = Except.ok (ymn, ymx))
    (hker : ¬(peaks.isEmpty = false ∧ strLower broadening ≠ "lorentzian"
        ∧ strLower broadening ≠ "gaussian")) :
    (generate_contour_map peaks grid_size broadening wx wy xlims ylims expf).map
        (fun t => (t.1.getD 0 0, t.1.getD (grid_size - 1) 0))
      = Except.ok (xmn - 5 * wx, xmx + 5 * wx)
    ∧ (generate_contour_map peaks grid_size broadening wx wy xlims ylims expf).map
        (fun t => (t.2.1.getD 0 0, t.2.1.getD (grid_size - 1) 0))
      = Except.ok (ymn - 5 * wy, ymx + 5 * wy) := by
  constructor
  · simp only [generate_contour_map, hx, hy]
    rw [if_neg hker]
    simp only [Except.map]
    rw [linspace_first _ _ _ (by omega), linspace_last _ _ _ hg]
  · simp only [generate_contour_map, hx, hy]
    rw [if_neg hker]
    simp only [Except.map]
    rw [linspace_first _ _ _ (by omega), linspace_last _ _ _ hg]

/-- C10 witness: the padded span at the concrete call with explicit limits
`(0, 1)` and `(0, 2)`, broadenings `1`, grid size `2`. -/
theorem C10_grid_spans_padded_limits_witness :
    ((2 : ℕ) ≤ 2
      ∧ resolve_lims (([] : List (Peak2D ℚ)).map Peak2D.x) (some (0, 1)) = Except.ok (0, 1)
      ∧ resolve_lims (([] : List (Peak2D ℚ)).map Peak2D.y) (some (0, 2)) = Except.ok (0, 2)
      ∧ ¬((([] : List (Peak2D ℚ))).isEmpty = false ∧ strLower "gaussian" ≠ "lorentzian"
          ∧ strLower "gaussian" ≠ "gaussian"))
    ∧ ((generate_contour_map ([] : List (Peak2D ℚ)) 2 "gaussian" 1 1
          (some (0, 1)) (some (0, 2)) (fun q => q)).map
          (fun t => (t.1.getD 0 0, t.1.getD (2 - 1) 0))
        = Except.ok (0 - 5 * 1, 1 + 5 * 1)
      ∧ (generate_contour_map ([] : List (Peak2D ℚ)) 2 "gaussian" 1 1
          (some (0, 1)) (some (0, 2)) (fun q => q)).map
          (fun t => (t.2.1.getD 0 0, t.2.1.getD (2 - 1) 0))
        = Except.ok (0 - 5 * 1, 2 + 5 * 1)) :=
  ⟨⟨by decide, rfl, rfl, by decide⟩,
    C10_grid_spans_padded_limits [] 2 "gaussian" 1 1 (some (0, 1)) (some (0, 2))
      (fun q => q) 0 1 0 2 (by decide) rfl rfl (by decide)⟩

/-- C10 counterexample: at `grid_size = 1` with limits `(0, 0)` and broadening
`1`, the returned x grid is the single point `-5 = x_min - 5*x_broadening`; it
has one element, so it never reaches `x_max + 5*x_broadening = 5` and does not
span the claimed interval — the claim fails for this call. -/
theorem C10_single_point_grid :
    ((generate_contour_map ([] : List (Peak2D ℚ)) 1 "gaussian" 1 1
        (some (0, 0)) (some (0, 0)) (fun q => q)).map (fun t => t.1.getD 0 0))
      = Except.ok (-5)
    ∧ ((generate_contour_map ([] : List (Peak2D ℚ)) 1 "gaussian" 1 1
        (some (0, 0)) (some (0, 0)) (fun q => q)).map (fun t => t.1.length))
      = Except.ok 1
    ∧ ((0 : ℚ) + 5 * 1 ≠ -5) := by
  refine ⟨?_, ?_, by norm_num⟩
  · simp only [generate_contour_map, resolve_lims, List.map_nil]
    rw [if_neg (by decide)]
    simp only [Except.map]
    norm_num [linspace, List.range_succ]
  · simp only [generate_contour_map, resolve_lims, List.map_nil]
    rw [if_neg (by decide)]
    simp only [Except.map]
    norm_num [linspace, List.range_succ]

end Soprano
